import Mathlib

/-!
Shallow embedding of `src/scope.rs` from the sentry-rust repository: the
scope-stack engine.  Stateful Rust code is embedded as explicit state
passing; `panic!` is embedded as a `Panic` value threaded out of each
fallible operation; `Arc<T>` is embedded transparently as `T` (values are
immutable here, so reference sharing and value equality coincide);
the `im` persistent containers are embedded as association lists / lists
(value semantics already give the required mutation isolation).
-/

/-- Opaque payload type `api::protocol::Breadcrumb` (external collaborator,
not part of the verified core); only its identity matters here. -/
structure Breadcrumb where
  id : Nat
deriving DecidableEq, Repr

/-- Opaque payload type `api::protocol::User` (external collaborator). -/
structure User where
  id : Nat
deriving DecidableEq, Repr

/-- Opaque payload type `api::protocol::Value` (external collaborator). -/
structure Value where
  id : Nat
deriving DecidableEq, Repr

/-- Opaque type `client::Client` (external collaborator); layers hold
`Option Client`, modelling `Option<Arc<Client>>`. -/
structure Client where
  id : Nat
deriving DecidableEq, Repr

/-- Model of `im::HashMap::insert`: returns a new version of the map with
`key` bound to `value` (any previous binding for `key` replaced). -/
def hmInsert (key : String) (value : α) (m : List (String × α)) :
    List (String × α) :=
  (key, value) :: m.filter (fun p => p.1 != key)

/-- Model of `im::HashMap::remove`: returns a new version of the map with
any binding for `key` removed. -/
def hmRemove (key : String) (m : List (String × α)) : List (String × α) :=
  m.filter (fun p => p.1 != key)

/-- `StackType` from the source: `Process | Thread`. -/
inductive StackType where
  | Process
  | Thread
deriving DecidableEq, Repr

/-- Debug rendering of a `StackType`, as Rust's `{:?}` produces it. -/
def StackType.debugStr : StackType → String
  | .Process => "Process"
  | .Thread => "Thread"

/-- The `panic!` outcomes of the source, as values.  `popFromEmpty` is
`panic!("Pop from empty {:?} stack", self.ty)`; `scopeGuardMismatch` is
`panic!("Current active stack does not match scope guard")`;
`indexOutOfBounds` models the slice-indexing panic that
`self.layers[self.layers.len() - 1]` would raise on an empty layer vector
(unreachable while the length-at-least-one invariant holds). -/
inductive Panic where
  | popFromEmpty (ty : StackType)
  | scopeGuardMismatch
  | indexOutOfBounds
deriving DecidableEq, Repr

/-- Panic message carried by each `Panic`, matching the source strings. -/
def Panic.message : Panic → String
  | .popFromEmpty ty => "Pop from empty " ++ ty.debugStr ++ " stack"
  | .scopeGuardMismatch => "Current active stack does not match scope guard"
  | .indexOutOfBounds => "index out of bounds"

/-- `Scope` from the source: breadcrumbs (`im::Vector<Breadcrumb>`), user
(`Option<Arc<User>>`), extra (`im::HashMap<String, Value>`) and tags
(`im::HashMap<String, String>`).  Field defaults give `Default::default()`. -/
structure Scope where
  breadcrumbs : List Breadcrumb := []
  user : Option User := none
  extra : List (String × Value) := []
  tags : List (String × String) := []
deriving DecidableEq, Repr

instance : Inhabited Scope := ⟨{}⟩

/-- `Scope::clear`: `*self = Default::default()`. -/
def Scope.clear (_s : Scope) : Scope := {}

/-- `Scope::set_user`: replaces the user wholesale
(`self.user = user.map(Arc::new)`). -/
def Scope.set_user (s : Scope) (user : Option User) : Scope :=
  { s with user := user }

/-- `Scope::set_tag`: `self.tags = self.tags.insert(key.to_string(),
value.to_string())`; the value is taken already converted to its string
representation (the `V: ToString` boundary). -/
def Scope.set_tag (s : Scope) (key value : String) : Scope :=
  { s with tags := hmInsert key value s.tags }

/-- `Scope::remove_tag`: `self.tags = self.tags.remove(&key.to_string())`. -/
def Scope.remove_tag (s : Scope) (key : String) : Scope :=
  { s with tags := hmRemove key s.tags }

/-- `Scope::set_extra`: `self.extra = self.extra.insert(key.to_string(),
value)`. -/
def Scope.set_extra (s : Scope) (key : String) (value : Value) : Scope :=
  { s with extra := hmInsert key value s.extra }

/-- `Scope::remove_extra`: `self.extra = self.extra.remove(&key.to_string())`. -/
def Scope.remove_extra (s : Scope) (key : String) : Scope :=
  { s with extra := hmRemove key s.extra }

/-- Modelled from the spec: breadcrumb append ("breadcrumbs: ordered
sequence of Breadcrumb, append-oriented, insertion order preserved";
`add_breadcrumb` lives outside `scope.rs`, in code not under `src/`). -/
def Scope.add_breadcrumb (s : Scope) (b : Breadcrumb) : Scope :=
  { s with breadcrumbs := s.breadcrumbs ++ [b] }

/-- `StackLayer` from the source: an optional shared client reference and
an owned `Scope`. -/
structure StackLayer where
  client : Option Client := none
  scope : Scope := {}
deriving DecidableEq, Repr

instance : Inhabited StackLayer := ⟨{}⟩

/-- `StackLayerToken(*const Stack, usize)`: the raw stack address is
modelled as a `Nat` identity (`stackAddr`), the second component is the
layer count at capture time.  Derived equality compares both fields, as
the source's `#[derive(PartialEq)]` does. -/
structure StackLayerToken where
  stackAddr : Nat
  depth : Nat
deriving DecidableEq, Repr

/-- `Stack` from the source: a vector of layers plus a `StackType` tag.
The extra field `id` models the stack instance's memory address
(`self as *const Stack`), fixed for the lifetime of the instance; it exists
only so that `token()` can be embedded. -/
structure Stack where
  id : Nat
  layers : List StackLayer
  ty : StackType
deriving DecidableEq, Repr

/-- Replaces the last element of a list by `f` of it; embeds an in-place
mutation of `self.layers[self.layers.len() - 1]`. -/
def updateLast (f : α → α) : List α → List α
  | [] => []
  | [x] => [f x]
  | x :: y :: xs => x :: updateLast f (y :: xs)

/-- `Stack::for_process`: a fresh one-layer stack with a default layer.
`addr` models the address the instance is allocated at. -/
def Stack.for_process (addr : Nat) : Stack :=
  { id := addr, layers := [{}], ty := StackType.Process }

/-- `Stack::push`: clones the current (last) layer
(`self.layers[self.layers.len() - 1].clone()`) and appends it. -/
def Stack.push (s : Stack) : Stack × Option Panic :=
  match s.layers.getLast? with
  | some top => ({ s with layers := s.layers ++ [top] }, none)
  | none => (s, some Panic.indexOutOfBounds)

/-- `Stack::pop`: panics if at most one layer remains, otherwise removes
the last layer. -/
def Stack.pop (s : Stack) : Stack × Option Panic :=
  if s.layers.length ≤ 1 then (s, some (Panic.popFromEmpty s.ty))
  else ({ s with layers := s.layers.dropLast }, none)

/-- `Stack::bind_client`: sets `self.layers[depth].client = Some(client)`
where `depth = self.layers.len() - 1`. -/
def Stack.bind_client (s : Stack) (client : Client) : Stack × Option Panic :=
  match s.layers with
  | [] => (s, some Panic.indexOutOfBounds)
  | _ :: _ =>
    ({ s with layers := updateLast (fun l => { l with client := some client }) s.layers },
     none)

/-- `Stack::client`: `self.layers[self.layers.len() - 1].client.clone()`.
On an empty layer vector the source would panic; that state is unreachable
(the length-at-least-one invariant), and the embedding returns `none`
there. -/
def Stack.client (s : Stack) : Option Client :=
  match s.layers.getLast? with
  | some top => top.client
  | none => none

/-- Read through `Stack::scope_mut`: the current (last) layer's scope.
On an empty layer vector the source would panic; unreachable as above. -/
def Stack.scope_mut (s : Stack) : Scope :=
  match s.layers.getLast? with
  | some top => top.scope
  | none => default

/-- Write through `Stack::scope_mut`: replace the current layer's scope. -/
def Stack.setScope (s : Stack) (sc : Scope) : Stack :=
  { s with layers := updateLast (fun l => { l with scope := sc }) s.layers }

/-- An in-place mutation of the current layer's scope through the
`&mut Scope` handle that `Stack::scope_mut` returns: read, apply `f`,
write back.  Panics (index out of bounds) on an empty layer vector, as the
source's `self.layers[idx]` would. -/
def Stack.modifyScope (s : Stack) (f : Scope → Scope) : Stack × Option Panic :=
  match s.layers with
  | [] => (s, some Panic.indexOutOfBounds)
  | _ :: _ =>
    ({ s with layers := updateLast (fun l => { l with scope := f l.scope }) s.layers },
     none)

/-- `Stack::for_thread`: a fresh one-layer stack whose sole layer snapshots
the process stack's current layer (`client: stack.client(), scope:
stack.scope_mut().clone()`).  `ps` is the process-wide stack the source
reads under its lock via `with_process_stack`; the new instance's address
is modelled as `tid + 1` (distinct per thread, distinct from the process
stack's conventional address 0). -/
def Stack.for_thread (ps : Stack) (tid : Nat) : Stack :=
  { id := tid + 1
    layers := [{ client := ps.client, scope := ps.scope_mut }]
    ty := StackType.Thread }

/-- `Stack::token`: `StackLayerToken(self as *const Stack,
self.layers.len())`. -/
def Stack.token (s : Stack) : StackLayerToken :=
  { stackAddr := s.id, depth := s.layers.length }

/-- `is_main_thread`: the source transmutes the current `ThreadId` to a raw
`u64` and compares it with 0.  `tid` models that raw id of the calling
context. -/
def is_main_thread (tid : Nat) : Bool :=
  tid == 0

/-- The global mutable state of the module: the `PROCESS_STACK` singleton
(behind its mutex) and the registry of lazily created `THREAD_STACK`
instances, keyed by the raw thread id. -/
structure GlobalState where
  processStack : Stack
  threadStacks : List (Nat × Stack)
deriving DecidableEq, Repr

/-- Looks up the thread-local stack already created for thread `tid`. -/
def lookupThread (l : List (Nat × Stack)) (tid : Nat) : Option Stack :=
  (l.find? (fun p => p.1 == tid)).map (fun p => p.2)

/-- Stores thread `tid`'s stack in the registry. -/
def setThread (l : List (Nat × Stack)) (tid : Nat) (s : Stack) :
    List (Nat × Stack) :=
  (tid, s) :: l.filter (fun p => p.1 != tid)

/-- The stack that a call from thread `tid` (non-main) operates on: the
already-created thread-local stack, or a fresh `for_thread` snapshot if
this is the thread's first access. -/
def threadStackFor (g : GlobalState) (tid : Nat) : Stack :=
  (lookupThread g.threadStacks tid).getD (Stack.for_thread g.processStack tid)

/-- `with_stack`: the single routing entry point.  Evaluates
`is_main_thread` for the calling context `tid` and dispatches `f` to the
process-wide stack or to `tid`'s thread-local stack (creating the latter
via `Stack::for_thread` on first access, as the `thread_local!` lazy
initializer does), writing the mutated stack back. -/
def with_stack (f : Stack → R × Stack) (tid : Nat) (g : GlobalState) :
    R × GlobalState :=
  if is_main_thread tid then
    let r := f g.processStack
    (r.1, { g with processStack := r.2 })
  else
    match lookupThread g.threadStacks tid with
    | some s =>
      let r := f s
      (r.1, { g with threadStacks := setThread g.threadStacks tid r.2 })
    | none =>
      let r := f (Stack.for_thread g.processStack tid)
      (r.1, { g with threadStacks := setThread g.threadStacks tid r.2 })

/-- `with_client_and_scope`'s closure body: if a client is bound on the
routed stack's current layer, run `f` with the client and a mutable handle
to the current scope; otherwise return `Default::default()`, embedded as
the explicit `dflt` (the value the caller's choice of `R: Default`
determines). -/
def clientScopeBody (dflt : R) (f : Client → Scope → R × Scope)
    (stack : Stack) : R × Stack :=
  match stack.client with
  | some c =>
    let r := f c stack.scope_mut
    (r.1, stack.setScope r.2)
  | none => (dflt, stack)

/-- `with_client_and_scope`: routes through `with_stack`. -/
def with_client_and_scope (dflt : R) (f : Client → Scope → R × Scope)
    (tid : Nat) (g : GlobalState) : R × GlobalState :=
  with_stack (clientScopeBody dflt f) tid g

/-- `ScopeGuard`: holds at most one token (`ScopeGuard(Option<StackLayerToken>)`). -/
structure ScopeGuard where
  token : Option StackLayerToken
deriving DecidableEq, Repr

/-- The body of `ScopeGuard::drop`'s `with_stack` closure: if the guard
holds a token, compare the routed stack's current token with it; on
mismatch panic (stack unchanged), on match `pop()`.  A guard holding no
token does nothing. -/
def scopeGuardRelease (tok : Option StackLayerToken) (stack : Stack) :
    Stack × Option Panic :=
  match tok with
  | none => (stack, none)
  | some token =>
    if stack.token ≠ token then (stack, some Panic.scopeGuardMismatch)
    else stack.pop

/-- `ScopeGuard::drop`: routes to the currently active stack via
`with_stack` and runs the release body there. -/
def ScopeGuard.drop (gd : ScopeGuard) (tid : Nat) (g : GlobalState) :
    Option Panic × GlobalState :=
  with_stack (fun stack =>
    let r := scopeGuardRelease gd.token stack
    (r.2, r.1)) tid g

/-- The stack operations claims quantify over, for stating stack-trace
invariants: `push`, `pop`, `bind_client`, and each scope mutation applied
through `scope_mut` on the current layer. -/
inductive Op where
  | push
  | pop
  | bindClient (c : Client)
  | setTag (k v : String)
  | removeTag (k : String)
  | setExtra (k : String) (v : Value)
  | removeExtra (k : String)
  | setUser (u : Option User)
  | addBreadcrumb (b : Breadcrumb)
  | clearScope
deriving DecidableEq, Repr

/-- Applies one operation to a stack. -/
def applyOp (op : Op) (s : Stack) : Stack × Option Panic :=
  match op with
  | .push => s.push
  | .pop => s.pop
  | .bindClient c => s.bind_client c
  | .setTag k v => s.modifyScope (fun sc => sc.set_tag k v)
  | .removeTag k => s.modifyScope (fun sc => sc.remove_tag k)
  | .setExtra k v => s.modifyScope (fun sc => sc.set_extra k v)
  | .removeExtra k => s.modifyScope (fun sc => sc.remove_extra k)
  | .setUser u => s.modifyScope (fun sc => sc.set_user u)
  | .addBreadcrumb b => s.modifyScope (fun sc => sc.add_breadcrumb b)
  | .clearScope => s.modifyScope Scope.clear

/-- Applies a sequence of operations, stopping at the first panic (a Rust
panic unwinds; the stack is left in its state at panic time). -/
def applyOps (ops : List Op) (s : Stack) : Stack × Option Panic :=
  match ops with
  | [] => (s, none)
  | op :: rest =>
    match applyOp op s with
    | (s', none) => applyOps rest s'
    | (s', some p) => (s', some p)

/-- Balanced sequences of `push`/`pop` calls: every `pop` matches a
preceding `push` and no prefix pops more than it pushed (Dyck words over
`Op.push`/`Op.pop`). -/
inductive PushPopBalanced : List Op → Prop where
  | nil : PushPopBalanced []
  | wrap {w rest : List Op} : PushPopBalanced w → PushPopBalanced rest →
      PushPopBalanced (Op.push :: w ++ Op.pop :: rest)

/-! Helper lemmas shared by the claim theorems. -/

theorem updateLast_concat (f : α → α) (l : List α) (x : α) :
    updateLast f (l ++ [x]) = l ++ [f x] := by
  induction l with
  | nil => rfl
  | cons a as ih =>
    cases as with
    | nil => rfl
    | cons b bs =>
      simp only [List.cons_append] at ih ⊢
      rw [updateLast, ih]

theorem updateLast_length (f : α → α) (l : List α) :
    (updateLast f l).length = l.length := by
  induction l with
  | nil => rfl
  | cons a as ih =>
    cases as with
    | nil => rfl
    | cons b bs =>
      rw [updateLast]
      simpa using ih

theorem exists_last_of_ne_nil {l : List α} (h : l ≠ []) :
    ∃ L x, l = L ++ [x] := by
  rcases l.eq_nil_or_concat with h0 | ⟨L, b, hl⟩
  · exact absurd h0 h
  · exact ⟨L, b, by simpa [List.concat_eq_append] using hl⟩

theorem push_of_layers_concat {s : Stack} {l : List StackLayer}
    {x : StackLayer} (h : s.layers = l ++ [x]) :
    s.push = ({ s with layers := s.layers ++ [x] }, none) := by
  simp [Stack.push, h, List.getLast?_concat]

theorem modifyScope_ne_nil (i : Nat) (ls : List StackLayer) (t : StackType)
    (f : Scope → Scope) (h : ls ≠ []) :
    (Stack.mk i ls t).modifyScope f =
      (Stack.mk i (updateLast (fun la => { la with scope := f la.scope }) ls) t,
       none) := by
  cases ls with
  | nil => exact absurd rfl h
  | cons a as => rfl

theorem bind_client_ne_nil (i : Nat) (ls : List StackLayer) (t : StackType)
    (c : Client) (h : ls ≠ []) :
    (Stack.mk i ls t).bind_client c =
      (Stack.mk i (updateLast (fun la => { la with client := some c }) ls) t,
       none) := by
  cases ls with
  | nil => exact absurd rfl h
  | cons a as => rfl

theorem modifyScope_of_layers_concat {s : Stack} {l : List StackLayer}
    {x : StackLayer} (h : s.layers = l ++ [x]) (f : Scope → Scope) :
    s.modifyScope f =
      ({ s with layers := l ++ [{ x with scope := f x.scope }] }, none) := by
  obtain ⟨i, ls, t⟩ := s
  simp only at h
  subst h
  rw [modifyScope_ne_nil _ _ _ _ (by simp), updateLast_concat]

theorem bind_client_of_layers_concat {s : Stack} {l : List StackLayer}
    {x : StackLayer} (h : s.layers = l ++ [x]) (c : Client) :
    s.bind_client c =
      ({ s with layers := l ++ [{ x with client := some c }] }, none) := by
  obtain ⟨i, ls, t⟩ := s
  simp only at h
  subst h
  rw [bind_client_ne_nil _ _ _ _ (by simp), updateLast_concat]

theorem client_of_layers_concat {s : Stack} {l : List StackLayer}
    {x : StackLayer} (h : s.layers = l ++ [x]) :
    s.client = x.client := by
  simp [Stack.client, h, List.getLast?_concat]

theorem scope_mut_of_layers_concat {s : Stack} {l : List StackLayer}
    {x : StackLayer} (h : s.layers = l ++ [x]) :
    s.scope_mut = x.scope := by
  simp [Stack.scope_mut, h, List.getLast?_concat]

theorem pop_of_long (s : Stack) (h : 2 ≤ s.layers.length) :
    s.pop = ({ s with layers := s.layers.dropLast }, none) := by
  rw [Stack.pop, if_neg (by omega)]

theorem applyOp_preserves_nonempty (op : Op) (s : Stack)
    (h : 1 ≤ s.layers.length) : 1 ≤ (applyOp op s).1.layers.length := by
  have hne : s.layers ≠ [] := by
    intro h0
    rw [h0] at h
    simp at h
  obtain ⟨l, x, hc⟩ := exists_last_of_ne_nil hne
  cases op with
  | push =>
    rw [applyOp, push_of_layers_concat hc]
    simp
  | pop =>
    rw [applyOp, Stack.pop]
    by_cases hl : s.layers.length ≤ 1
    · rw [if_pos hl]
      exact h
    · rw [if_neg hl]
      simp only [List.length_dropLast]
      omega
  | bindClient c =>
    rw [applyOp, bind_client_of_layers_concat hc]
    simp
  | setTag k v =>
    rw [applyOp, modifyScope_of_layers_concat hc]
    simp
  | removeTag k =>
    rw [applyOp, modifyScope_of_layers_concat hc]
    simp
  | setExtra k v =>
    rw [applyOp, modifyScope_of_layers_concat hc]
    simp
  | removeExtra k =>
    rw [applyOp, modifyScope_of_layers_concat hc]
    simp
  | setUser u =>
    rw [applyOp, modifyScope_of_layers_concat hc]
    simp
  | addBreadcrumb b =>
    rw [applyOp, modifyScope_of_layers_concat hc]
    simp
  | clearScope =>
    rw [applyOp, modifyScope_of_layers_concat hc]
    simp

theorem applyOps_preserves_nonempty (ops : List Op) (s : Stack)
    (h : 1 ≤ s.layers.length) : 1 ≤ (applyOps ops s).1.layers.length := by
  induction ops generalizing s with
  | nil => simpa [applyOps] using h
  | cons op rest ih =>
    have hstep := applyOp_preserves_nonempty op s h
    rw [applyOps]
    cases e : applyOp op s with
    | mk s' p =>
      rw [e] at hstep
      cases p with
      | none => exact ih s' hstep
      | some q => exact hstep

theorem applyOps_append_of_ok {a : List Op} {s s1 : Stack}
    (h : applyOps a s = (s1, none)) (b : List Op) :
    applyOps (a ++ b) s = applyOps b s1 := by
  induction a generalizing s with
  | nil =>
    rw [applyOps] at h
    cases h
    rfl
  | cons op rest ih =>
    rw [applyOps] at h
    rw [List.cons_append, applyOps]
    cases e : applyOp op s with
    | mk s' p =>
      rw [e] at h
      cases p with
      | none => exact ih h
      | some q => simp at h

theorem applyOps_cons_ok {op : Op} {rest : List Op} {s s' : Stack}
    (h : applyOp op s = (s', none)) :
    applyOps (op :: rest) s = applyOps rest s' := by
  rw [applyOps, h]

theorem pushpop_identity {ops : List Op} (hb : PushPopBalanced ops) :
    ∀ s : Stack, s.layers ≠ [] → applyOps ops s = (s, none) := by
  induction hb with
  | nil =>
    intro s h
    rfl
  | @wrap w rest hw hrest ihw ihrest =>
    intro s h
    obtain ⟨l, x, hc⟩ := exists_last_of_ne_nil h
    have hpush : applyOp Op.push s = ({ s with layers := s.layers ++ [x] }, none) := by
      rw [applyOp, push_of_layers_concat hc]
    have h1ne : ({ s with layers := s.layers ++ [x] } : Stack).layers ≠ [] := by
      simp
    rw [show Op.push :: w ++ Op.pop :: rest = Op.push :: (w ++ Op.pop :: rest) from rfl,
      applyOps_cons_ok hpush]
    rw [applyOps_append_of_ok (ihw _ h1ne) (Op.pop :: rest)]
    have hpop : applyOp Op.pop { s with layers := s.layers ++ [x] } = (s, none) := by
      rw [applyOp, pop_of_long _ (by simp [hc])]
      have hd : (s.layers ++ [x]).dropLast = s.layers := List.dropLast_concat
      simp only [hd]
    rw [applyOps_cons_ok hpop]
    exact ihrest s h

theorem lookupThread_setThread_same (l : List (Nat × Stack)) (tid : Nat)
    (s : Stack) : lookupThread (setThread l tid s) tid = some s := by
  simp [lookupThread, setThread]

theorem find?_filter_ne_key (l : List (Nat × Stack)) {tid tid' : Nat}
    (h : tid' ≠ tid) :
    List.find? (fun p => p.1 == tid') (l.filter (fun p => p.1 != tid)) =
      List.find? (fun p => p.1 == tid') l := by
  induction l with
  | nil => rfl
  | cons a as ih =>
    by_cases ha : a.1 = tid
    · have h1 : (a.1 != tid) = false := by simp [ha]
      have h2 : (a.1 == tid') = false := by simp [ha, Ne.symm h]
      rw [List.filter_cons, h1]
      simp only [Bool.false_eq_true, if_false]
      rw [ih, List.find?, h2]
    · have h1 : (a.1 != tid) = true := by simp [ha]
      rw [List.filter_cons, h1, if_pos rfl]
      simp only [List.find?]
      cases e : (a.1 == tid') with
      | true => rfl
      | false => exact ih

theorem lookupThread_setThread_other (l : List (Nat × Stack))
    {tid tid' : Nat} (s : Stack) (h : tid' ≠ tid) :
    lookupThread (setThread l tid s) tid' = lookupThread l tid' := by
  simp only [lookupThread, setThread, List.find?]
  rw [show ((tid, s).1 == tid') = false by simp [Ne.symm h]]
  rw [find?_filter_ne_key l h]

theorem with_stack_main {R : Type} (f : Stack → R × Stack) (tid : Nat)
    (g : GlobalState) (h : is_main_thread tid = true) :
    with_stack f tid g =
      ((f g.processStack).1, { g with processStack := (f g.processStack).2 }) := by
  rw [with_stack, if_pos h]

theorem with_stack_nonmain {R : Type} (f : Stack → R × Stack) (tid : Nat)
    (g : GlobalState) (h : is_main_thread tid = false) :
    with_stack f tid g =
      ((f (threadStackFor g tid)).1,
       { g with threadStacks :=
           setThread g.threadStacks tid (f (threadStackFor g tid)).2 }) := by
  rw [with_stack, if_neg (by simp [h])]
  cases e : lookupThread g.threadStacks tid with
  | some s => simp [threadStackFor, e]
  | none => simp [threadStackFor, e]

theorem modify_after_push_dropLast {s : Stack} {x : StackLayer}
    (hx : s.layers.getLast? = some x) (f : Scope → Scope) :
    ((s.push).1.modifyScope f).1.layers.dropLast = s.layers := by
  have hp : s.push = ({ s with layers := s.layers ++ [x] }, none) := by
    rw [Stack.push, hx]
  have h2 : (({ s with layers := s.layers ++ [x] } : Stack)).layers
      = s.layers ++ [x] := rfl
  rw [hp, modifyScope_of_layers_concat h2 f]
  exact List.dropLast_concat

/-! The claim theorems. -/

/-- C6: for every stack with a current (last) layer, `push()` appends a new
current layer that is a clone of the previous current layer: the result is
exactly the old stack with the old top layer appended (no panic), the depth
grows by one, all pre-existing layers are unchanged, and the new current
layer carries the same client reference and an equal scope as the previous
current layer. -/
theorem push_clones_current_layer (s : Stack) (top : StackLayer)
    (h : s.layers.getLast? = some top) :
    s.push = ({ s with layers := s.layers ++ [top] }, none) ∧
    (s.push).1.layers.length = s.layers.length + 1 ∧
    (s.push).1.layers.dropLast = s.layers ∧
    (s.push).1.layers.getLast? = some top ∧
    (s.push).1.client = s.client ∧
    (s.push).1.scope_mut = s.scope_mut := by
  have he : s.push = ({ s with layers := s.layers ++ [top] }, none) := by
    rw [Stack.push, h]
  refine ⟨he, ?_, ?_, ?_, ?_, ?_⟩ <;> rw [he]
  · simp
  · exact List.dropLast_concat
  · exact List.getLast?_concat _
  · simp [Stack.client, List.getLast?_concat, h]
  · simp [Stack.scope_mut, List.getLast?_concat, h]

/-- Witness for C6 at a concrete one-layer stack. -/
theorem push_clones_current_layer_witness :
    (Stack.for_process 0).layers.getLast? = some {} ∧
    (Stack.for_process 0).push
      = ({ Stack.for_process 0 with
            layers := (Stack.for_process 0).layers ++ [{}] }, none) :=
  ⟨rfl, (push_clones_current_layer (Stack.for_process 0) {} rfl).1⟩

/-- C3: every stack has at least one layer at all times: both constructors
create a one-layer stack, `push()` increases the layer count by one, `pop()`
on a one-layer stack fails fatally with the "Pop from empty ... stack"
message without removing anything, and no sequence of operations ever
reduces a stack's depth below 1. -/
theorem stack_depth_never_below_one (addr tid : Nat) (ps s : Stack)
    (ops : List Op) (h : 1 ≤ s.layers.length) :
    (Stack.for_process addr).layers.length = 1 ∧
    (Stack.for_thread ps tid).layers.length = 1 ∧
    (s.push).1.layers.length = s.layers.length + 1 ∧
    (s.layers.length = 1 →
      s.pop = (s, some (Panic.popFromEmpty s.ty)) ∧
      (Panic.popFromEmpty s.ty).message
        = "Pop from empty " ++ s.ty.debugStr ++ " stack") ∧
    1 ≤ (applyOps ops s).1.layers.length := by
  have hne : s.layers ≠ [] := by
    intro h0
    rw [h0] at h
    simp at h
  obtain ⟨l, x, hc⟩ := exists_last_of_ne_nil hne
  refine ⟨rfl, rfl, ?_, ?_, applyOps_preserves_nonempty ops s h⟩
  · rw [push_of_layers_concat hc]
    simp
  · intro h1
    refine ⟨?_, rfl⟩
    rw [Stack.pop, if_pos (by omega)]

/-- Witness for C3: two pops in a row on a fresh one-layer stack leave its
depth at 1 (the first pop panics without removing the layer). -/
theorem stack_depth_never_below_one_witness :
    1 ≤ (Stack.for_process 5).layers.length ∧
    1 ≤ (applyOps [Op.pop, Op.pop] (Stack.for_process 5)).1.layers.length :=
  ⟨by decide,
   (stack_depth_never_below_one 0 0 (Stack.for_process 0) (Stack.for_process 5)
      [Op.pop, Op.pop] (by decide)).2.2.2.2⟩

/-- C2: after `push()` creates a new current layer, any scope mutation
performed through the new current layer (set_tag, set_extra, set_user,
breadcrumb append, remove_tag, remove_extra, clear) leaves every pre-push
layer — and in particular every field of the pre-push current layer's
Scope — exactly as it was: the resulting layer list restricted to the
pre-push layers (`dropLast`) is the original list. -/
theorem mutation_after_push_isolated (s : Stack) (h : s.layers ≠ [])
    (k v : String) (val : Value) (u : Option User) (b : Breadcrumb) :
    (((s.push).1.modifyScope (fun sc => sc.set_tag k v)).1.layers.dropLast
      = s.layers) ∧
    (((s.push).1.modifyScope (fun sc => sc.set_extra k val)).1.layers.dropLast
      = s.layers) ∧
    (((s.push).1.modifyScope (fun sc => sc.set_user u)).1.layers.dropLast
      = s.layers) ∧
    (((s.push).1.modifyScope (fun sc => sc.add_breadcrumb b)).1.layers.dropLast
      = s.layers) ∧
    (((s.push).1.modifyScope (fun sc => sc.remove_tag k)).1.layers.dropLast
      = s.layers) ∧
    (((s.push).1.modifyScope (fun sc => sc.remove_extra k)).1.layers.dropLast
      = s.layers) ∧
    (((s.push).1.modifyScope Scope.clear).1.layers.dropLast = s.layers) := by
  obtain ⟨l, x, hc⟩ := exists_last_of_ne_nil h
  have hx : s.layers.getLast? = some x := by
    rw [hc]
    exact List.getLast?_concat _
  exact ⟨modify_after_push_dropLast hx _, modify_after_push_dropLast hx _,
    modify_after_push_dropLast hx _, modify_after_push_dropLast hx _,
    modify_after_push_dropLast hx _, modify_after_push_dropLast hx _,
    modify_after_push_dropLast hx _⟩

/-- Witness for C2 at a concrete one-layer stack. -/
theorem mutation_after_push_isolated_witness :
    (Stack.for_process 0).layers ≠ [] ∧
    (((Stack.for_process 0).push).1.modifyScope
        (fun sc => sc.set_tag "env" "prod")).1.layers.dropLast
      = (Stack.for_process 0).layers :=
  ⟨by decide,
   (mutation_after_push_isolated (Stack.for_process 0) (by decide)
      "env" "prod" ⟨42⟩ (some ⟨1⟩) ⟨2⟩).1⟩

/-- C9: `bind_client(client)` replaces the client reference on the current
(last) layer only: no panic, the layer count is unchanged, every other
layer is unchanged, the current layer's client becomes the given client,
and every layer's scope (the current one included) is unchanged, as are
the stack's identity and type. -/
theorem bind_client_current_only (s : Stack) (c : Client)
    (h : s.layers ≠ []) :
    (s.bind_client c).2 = none ∧
    (s.bind_client c).1.layers.length = s.layers.length ∧
    (s.bind_client c).1.layers.dropLast = s.layers.dropLast ∧
    (s.bind_client c).1.client = some c ∧
    (s.bind_client c).1.layers.map StackLayer.scope
      = s.layers.map StackLayer.scope ∧
    (s.bind_client c).1.scope_mut = s.scope_mut ∧
    (s.bind_client c).1.id = s.id ∧ (s.bind_client c).1.ty = s.ty := by
  obtain ⟨l, x, hc⟩ := exists_last_of_ne_nil h
  have hb := bind_client_of_layers_concat hc c
  rw [hb]
  refine ⟨rfl, ?_, ?_, ?_, ?_, ?_, rfl, rfl⟩
  · simp [hc]
  · simp [hc, List.dropLast_concat]
  · exact client_of_layers_concat
      (show ({ s with layers := l ++ [{ x with client := some c }] } : Stack).layers
        = l ++ [{ x with client := some c }] from rfl)
  · simp [hc]
  · rw [scope_mut_of_layers_concat
      (show ({ s with layers := l ++ [{ x with client := some c }] } : Stack).layers
        = l ++ [{ x with client := some c }] from rfl),
      scope_mut_of_layers_concat hc]

/-- Witness for C9 at a concrete one-layer stack. -/
theorem bind_client_current_only_witness :
    (Stack.for_process 0).layers ≠ [] ∧
    ((Stack.for_process 0).bind_client ⟨7⟩).1.client = some ⟨7⟩ :=
  ⟨by decide,
   (bind_client_current_only (Stack.for_process 0) ⟨7⟩ (by decide)).2.2.2.1⟩

/-- C1: releasing (dropping) a `ScopeGuard` routes to the currently active
stack (via `with_stack`) and compares that stack's current token to the
held one: a guard holding no token pops nothing and leaves the stack
unchanged; if the tokens differ the release fails fatally with the
"Current active stack does not match scope guard" message and the stack is
left unchanged; if they are equal the release performs exactly one
`pop()`. -/
theorem scope_guard_drop_checks_token (t : StackLayerToken) (s : Stack)
    (gd : ScopeGuard) (tid : Nat) (g : GlobalState) :
    scopeGuardRelease none s = (s, none) ∧
    (s.token ≠ t →
      scopeGuardRelease (some t) s = (s, some Panic.scopeGuardMismatch) ∧
      Panic.scopeGuardMismatch.message
        = "Current active stack does not match scope guard") ∧
    (s.token = t → scopeGuardRelease (some t) s = s.pop) ∧
    ScopeGuard.drop gd tid g
      = with_stack (fun stack =>
          let r := scopeGuardRelease gd.token stack
          (r.2, r.1)) tid g := by
  refine ⟨rfl, ?_, ?_, rfl⟩
  · intro hne
    rw [scopeGuardRelease, if_pos hne]
    exact ⟨rfl, rfl⟩
  · intro heq
    rw [scopeGuardRelease, if_neg (by simp [heq])]

/-- Witness for C1: a matching token pops, a mismatched one panics. -/
theorem scope_guard_drop_checks_token_witness :
    (Stack.mk 7 [{}, {}] StackType.Process).token ≠ (⟨7, 3⟩ : StackLayerToken) ∧
    scopeGuardRelease (some ⟨7, 3⟩) (Stack.mk 7 [{}, {}] StackType.Process)
      = (Stack.mk 7 [{}, {}] StackType.Process, some Panic.scopeGuardMismatch) :=
  ⟨by decide,
   ((scope_guard_drop_checks_token ⟨7, 3⟩ (Stack.mk 7 [{}, {}] StackType.Process)
      ⟨none⟩ 0 ⟨Stack.for_process 0, []⟩).2.1 (by decide)).1⟩

/-- C4: `with_client_and_scope` routes to the appropriate stack via
`with_stack`; on the routed stack, if a client is bound on the current
layer the supplied operation is invoked with that client and a mutable
handle to the current layer's scope and its result is returned; if no
client is bound the operation is not invoked (the result is the
caller-determined default and the stack is untouched, uniformly in the
operation). -/
theorem with_client_and_scope_spec {R : Type} (dflt : R)
    (f : Client → Scope → R × Scope) (s : Stack) (c : Client)
    (tid : Nat) (g : GlobalState) :
    (s.client = none → clientScopeBody dflt f s = (dflt, s)) ∧
    (s.client = some c →
      clientScopeBody dflt f s
        = ((f c s.scope_mut).1, s.setScope (f c s.scope_mut).2)) ∧
    with_client_and_scope dflt f tid g
      = with_stack (clientScopeBody dflt f) tid g := by
  refine ⟨?_, ?_, rfl⟩
  · intro h0
    rw [clientScopeBody, h0]
  · intro h1
    rw [clientScopeBody, h1]

/-- Witness for C4: no client bound gives the default and leaves the stack
alone. -/
theorem with_client_and_scope_spec_witness :
    (Stack.for_process 0).client = none ∧
    clientScopeBody 42 (fun c sc => (c.id, sc.set_tag "k" "v"))
        (Stack.for_process 0)
      = (42, Stack.for_process 0) :=
  ⟨rfl,
   (with_client_and_scope_spec 42 (fun c sc => (c.id, sc.set_tag "k" "v"))
      (Stack.for_process 0) ⟨0⟩ 0 ⟨Stack.for_process 0, []⟩).1 rfl⟩

/-- C5: `with_stack` evaluates `is_main_thread` for the calling context on
each call (the routing depends only on that call's thread id): a main
context call operates on the process-wide stack and leaves every
thread-local stack untouched; a non-main context call operates on that
context's private stack (existing or freshly seeded) and leaves the
process-wide stack untouched. -/
theorem with_stack_routes_per_call {R : Type} (f : Stack → R × Stack)
    (tid : Nat) (g : GlobalState) :
    (is_main_thread tid = (tid == 0)) ∧
    (is_main_thread tid = true →
      with_stack f tid g
        = ((f g.processStack).1,
           { g with processStack := (f g.processStack).2 }) ∧
      (with_stack f tid g).2.threadStacks = g.threadStacks) ∧
    (is_main_thread tid = false →
      with_stack f tid g
        = ((f (threadStackFor g tid)).1,
           { g with threadStacks :=
               setThread g.threadStacks tid (f (threadStackFor g tid)).2 }) ∧
      (with_stack f tid g).2.processStack = g.processStack) := by
  refine ⟨rfl, ?_, ?_⟩
  · intro h
    have he := with_stack_main f tid g h
    exact ⟨he, by rw [he]⟩
  · intro h
    have he := with_stack_nonmain f tid g h
    exact ⟨he, by rw [he]⟩

/-- Witness for C5: a main-context call leaves thread stacks untouched. -/
theorem with_stack_routes_per_call_witness :
    is_main_thread 0 = true ∧
    (with_stack (fun st => ((), st.push.1)) 0
        ⟨Stack.for_process 0, []⟩).2.threadStacks = [] :=
  ⟨rfl,
   ((with_stack_routes_per_call (fun st => ((), st.push.1)) 0
      ⟨Stack.for_process 0, []⟩).2.1 rfl).2⟩

/-- C7: a thread-local stack is created lazily at the thread's first
access with exactly one layer snapshotting the process-wide stack's
current layer (same client reference, equal scope); after the first
access it is stored in the registry, and thereafter (and from the start)
non-main calls never change the process-wide stack or other threads'
stacks, while main-context calls never change any thread-local stack. -/
theorem thread_stack_lazily_seeded {R : Type} (f : Stack → R × Stack)
    (tid : Nat) (g : GlobalState) (ps : Stack) :
    (Stack.for_thread ps tid).layers
      = [{ client := ps.client, scope := ps.scope_mut }] ∧
    (Stack.for_thread ps tid).layers.length = 1 ∧
    (is_main_thread tid = false → lookupThread g.threadStacks tid = none →
      with_stack f tid g
        = ((f (Stack.for_thread g.processStack tid)).1,
           { g with threadStacks := setThread g.threadStacks tid (f (Stack.for_thread g.processStack tid)).2 }) ∧
      lookupThread (with_stack f tid g).2.threadStacks tid
        = some (f (Stack.for_thread g.processStack tid)).2) ∧
    (is_main_thread tid = false →
      (with_stack f tid g).2.processStack = g.processStack ∧
      ∀ tid2, tid2 ≠ tid →
        lookupThread (with_stack f tid g).2.threadStacks tid2
          = lookupThread g.threadStacks tid2) ∧
    (is_main_thread tid = true →
      (with_stack f tid g).2.threadStacks = g.threadStacks) := by
  refine ⟨rfl, rfl, ?_, ?_, ?_⟩
  · intro hm hn
    have ht : threadStackFor g tid = Stack.for_thread g.processStack tid := by
      rw [threadStackFor, hn]
      exact Option.getD_none
    have he := with_stack_nonmain f tid g hm
    rw [ht] at he
    refine ⟨he, ?_⟩
    rw [he]
    exact lookupThread_setThread_same _ _ _
  · intro hm
    have he := with_stack_nonmain f tid g hm
    refine ⟨by rw [he], ?_⟩
    intro tid2 h2
    rw [he]
    exact lookupThread_setThread_other g.threadStacks _ h2
  · intro hm
    rw [with_stack_main f tid g hm]

/-- Witness for C7: thread 1's first access creates and stores its stack. -/
theorem thread_stack_lazily_seeded_witness :
    is_main_thread 1 = false ∧
    lookupThread (with_stack (fun st => ((), st)) 1
        ⟨Stack.for_process 0, []⟩).2.threadStacks 1
      = some (Stack.for_thread (Stack.for_process 0) 1) :=
  ⟨rfl,
   ((thread_stack_lazily_seeded (fun st => ((), st)) 1
      ⟨Stack.for_process 0, []⟩ (Stack.for_process 0)).2.2.1 rfl rfl).2⟩

/-- C8: for every nonempty stack and every balanced sequence of
`push()`/`pop()` calls, the sequence completes without panicking and the
stack is restored exactly: same depth, and the current layer's client and
scope equal those before the sequence began (indeed the whole stack is
equal). -/
theorem balanced_pushpop_restores (ops : List Op) (s : Stack)
    (hb : PushPopBalanced ops) (h : s.layers ≠ []) :
    applyOps ops s = (s, none) ∧
    (applyOps ops s).1.layers.length = s.layers.length ∧
    (applyOps ops s).1.client = s.client ∧
    (applyOps ops s).1.scope_mut = s.scope_mut := by
  have key := pushpop_identity hb s h
  rw [key]
  exact ⟨rfl, rfl, rfl, rfl⟩

/-- Witness for C8 on the balanced sequence push-push-pop-pop. -/
theorem balanced_pushpop_restores_witness :
    applyOps [Op.push, Op.push, Op.pop, Op.pop] (Stack.mk 3 [{}] StackType.Thread)
      = (Stack.mk 3 [{}] StackType.Thread, none) :=
  (balanced_pushpop_restores [Op.push, Op.push, Op.pop, Op.pop]
    (Stack.mk 3 [{}] StackType.Thread)
    (PushPopBalanced.wrap
      (PushPopBalanced.wrap PushPopBalanced.nil PushPopBalanced.nil)
      PushPopBalanced.nil)
    (by decide)).1

/-- C10: `StackLayerToken` equality compares only the stack's identity and
the layer count at capture: two stacks with the same identity and depth
have equal tokens whatever their layers hold (in particular, replacing the
current layer by any other layer leaves the token unchanged), and a
guard's release pops whenever the routed stack has the token's identity
and depth, regardless of which layers now occupy the stack. -/
theorem token_compares_only_identity_and_depth (s s2 : Stack)
    (t : StackLayerToken) (x : StackLayer) :
    (s.token = s2.token ↔ s.id = s2.id ∧ s.layers.length = s2.layers.length) ∧
    (s.layers ≠ [] →
      ({ s with layers := s.layers.dropLast ++ [x] } : Stack).token = s.token) ∧
    (s.id = t.stackAddr → s.layers.length = t.depth →
      scopeGuardRelease (some t) s = s.pop) := by
  refine ⟨?_, ?_, ?_⟩
  · constructor
    · intro he
      exact ⟨congrArg StackLayerToken.stackAddr he,
        congrArg StackLayerToken.depth he⟩
    · intro hp
      rw [Stack.token, Stack.token, hp.1, hp.2]
  · intro hne
    have hlen : 1 ≤ s.layers.length := List.length_pos.mpr hne
    have hl : (s.layers.dropLast ++ [x]).length = s.layers.length := by
      rw [List.length_append, List.length_dropLast, List.length_singleton]
      omega
    rw [Stack.token, Stack.token, hl]
  · intro h1 h2
    have ht : s.token = t := by
      rw [Stack.token, h1, h2]
    rw [scopeGuardRelease, if_neg (by simp [ht])]

/-- Witness for C10: the token of a two-layer stack at address 4 matches
the token (4, 2), so release pops even though the layers are arbitrary. -/
theorem token_compares_only_identity_and_depth_witness :
    (Stack.mk 4 [{}, { client := some ⟨9⟩ }] StackType.Thread).id
      = (⟨4, 2⟩ : StackLayerToken).stackAddr ∧
    scopeGuardRelease (some ⟨4, 2⟩)
        (Stack.mk 4 [{}, { client := some ⟨9⟩ }] StackType.Thread)
      = (Stack.mk 4 [{}, { client := some ⟨9⟩ }] StackType.Thread).pop :=
  ⟨rfl,
   (token_compares_only_identity_and_depth
      (Stack.mk 4 [{}, { client := some ⟨9⟩ }] StackType.Thread)
      (Stack.for_process 0) ⟨4, 2⟩ {}).2.2 rfl rfl⟩
